import Mathlib

/-!
Verification development for the incremental-build fingerprint cache in
`src/librustc_incremental/persist/hash.rs`.

The file shallowly embeds the data model and the operations of that module:
the `HashContext` input classifier, and the `MetadataHashLoader` service with
its `metadata_hash` retry loop, the per-unit `load_data` procedure and the
`load_from_data` decoder.  External collaborators (the `TyCtxt` services, the
session-directory locator, the file lock, file reading and the serialization
codec) are modelled as an explicit environment record; fatal `assert!`/`bug!`
paths are a distinct result constructor; user-visible diagnostics emitted via
`tcx.sess.err` and invocations of `load_data` are tracked explicitly so that
observability properties can be stated.
-/

/-- Model of `rustc::hir::def_id::CrateNum` (an index identifying a crate). -/
abbrev CrateNum := Nat

/-- Model of `rustc::hir::def_id::LOCAL_CRATE` (crate number zero). -/
def LOCAL_CRATE : CrateNum := 0

/-- Model of `rustc::hir::def_id::DefId`: a crate number plus an index local
to that crate. -/
structure DefId where
  krate : CrateNum
  index : Nat
deriving DecidableEq, Repr

/-- Model of `rustc::hir::svh::Svh`, a crate-wide summary hash wrapping a
`u64` value. -/
structure Svh where
  hash : Nat
deriving DecidableEq, Repr

/-- Model of `Svh::as_u64`, truncated to the `u64` range. -/
def Svh.as_u64 (s : Svh) : Nat := s.hash % 2 ^ 64

/-- Model of `rustc::ich::Fingerprint`, a fixed-width content hash (two
64-bit words in the original). -/
structure Fingerprint where
  word0 : Nat
  word1 : Nat
deriving DecidableEq, Repr

/-- Modelled from the spec: `Fingerprint::from_smaller_hash` lives in the
external `rustc::ich` crate and is a pure, deterministic widening of a 64-bit
hash into the fingerprint representation; the spec leaves the exact bit
pattern open, so the hash is duplicated into both words. -/
def Fingerprint.from_smaller_hash (h : Nat) : Fingerprint := ⟨h, h⟩

/-- `svh_to_fingerprint` from `hash.rs` (lines 181-183). -/
def svh_to_fingerprint (svh : Svh) : Fingerprint :=
  Fingerprint.from_smaller_hash svh.as_u64

/-- Model of `rustc::dep_graph::DepKind`: the five kinds that `hash.rs`
names as inputs, plus a catch-all for every other (derived) kind of the
external enum, which the source handles with a single wildcard arm. -/
inductive DepKind where
  | Krate
  | InScopeTraits
  | Hir
  | MetaData
  | HirBody
  | Other (n : Nat)
deriving DecidableEq, Repr

/-- Model of `rustc::dep_graph::DepNode`: a kind tag plus an opaque payload
standing for the node's parameters. -/
structure DepNode where
  kind : DepKind
  payload : Nat
deriving DecidableEq, Repr

/-- The designated input kinds, exactly the match arms of
`HashContext::hash` (lines 40-44). -/
def inputDepKinds : List DepKind :=
  [DepKind.Krate, DepKind.InScopeTraits, DepKind.Hir, DepKind.MetaData,
   DepKind.HirBody]

/-- Model of `HashContext` (lines 26-28): the only capability of the wrapped
`TyCtxt` that `HashContext::hash` uses is
`tcx.dep_graph.fingerprint_of(dep_node, Some(tcx))`, modelled as a function
from nodes to fingerprints (the session's identity store). -/
structure HashContext where
  dep_graph_fingerprint_of : DepNode → Fingerprint

/-- `HashContext::hash` (lines 37-56): route by node kind; the five input
kinds are answered from the identity store, every other kind gets `None`.
Pure by construction (no state is threaded). -/
def HashContext.hash (hcx : HashContext) (dep_node : DepNode) :
    Option Fingerprint :=
  match dep_node.kind with
  | DepKind.Krate | DepKind.InScopeTraits | DepKind.Hir
  | DepKind.MetaData | DepKind.HirBody =>
      some (hcx.dep_graph_fingerprint_of dep_node)
  | _ => none

/-- Lookup in a model of `FxHashMap`, represented as an association list
(most recent insertion first). -/
def fxGet {K V : Type} [DecidableEq K] : List (K × V) → K → Option V
  | [], _ => none
  | (k', v) :: rest, k => if k = k' then some v else fxGet rest k

/-- Model of `FxHashMap::insert`: returns the updated map together with the
previous value for the key (`None` when the key was absent), as Rust's
`HashMap::insert` does. -/
def fxInsert {K V : Type} [DecidableEq K] (m : List (K × V)) (k : K) (v : V) :
    List (K × V) × Option V :=
  ((k, v) :: m, fxGet m k)

/-- Model of `super::data::SerializedMetadataHash` (its module is not among
the staged files): one `(def_index, hash)` pair of an export file, per the
spec's on-disk layout. -/
structure SerializedMetadataHash where
  def_index : Nat
  hash : Fingerprint
deriving DecidableEq, Repr

/-- Model of `super::data::SerializedMetadataHashes` (its module is not among
the staged files): the decoded sequence of entry hashes. -/
structure SerializedMetadataHashes where
  entry_hashes : List SerializedMetadataHash
deriving DecidableEq, Repr

/-- Modelled from the spec: an export payload as seen through the external
`rustc_serialize` codec.  The two decoding steps of `load_from_data`
(`Svh::decode`, then `SerializedMetadataHashes::decode`) are modelled by
their outcomes, `Except` capturing the `Result<_, String>` of the decoder. -/
structure ExportPayload where
  decode_svh : Except String Svh
  decode_hashes : Except String SerializedMetadataHashes
deriving Repr

/-- `MetadataHashLoader` (lines 59-62): the two in-memory maps. -/
structure MetadataHashLoader where
  metadata_hashes : List (DefId × Fingerprint)
  crate_hashes : List (CrateNum × Svh)
deriving DecidableEq, Repr

/-- The state `metadata_fingerprint` (lines 185-191) builds the closure
around: both maps empty. -/
def MetadataHashLoader.initialState : MetadataHashLoader := ⟨[], []⟩

/-- The services of `TyCtxt` and of the external fs/flock/file-format
collaborators that `load_data` consumes, as one environment record:
`tcx.crate_hash`, `find_metadata_hashes_for`, `flock::Lock::new` (keyed by
path and by the wait/create/exclusive flags) and `file_format::read_file`
(`Except.error` a genuine I/O failure, `Except.ok none` an absent file). -/
structure TyCtxtEnv where
  crate_hash : CrateNum → Svh
  find_metadata_hashes_for : CrateNum → Option String
  lock_new : String → Bool → Bool → Bool → Except String Unit
  read_file : String → Except String (Option ExportPayload)

/-- Modelled from the spec: `lock_file_path` lives in the external fs module;
the lock-file path is a fixed, well-known filename derived deterministically
from the session directory. -/
def lock_file_path (session_dir : String) : String := session_dir ++ "/lock"

/-- Modelled from the spec: `metadata_hash_import_path` lives in the external
fs module; the export file is a fixed filename inside the session
directory. -/
def metadata_hash_import_path (session_dir : String) : String :=
  session_dir ++ "/metadata.bin"

/-- Outcome of `load_from_data`: the `Ok(())`/`Err(String)` of the source's
return type, plus `fatal` for the `bug!`/`assert!` aborts, each carrying the
loader state reached. -/
inductive LoadFromDataResult where
  | ok (state : MetadataHashLoader)
  | err (msg : String) (state : MetadataHashLoader)
  | fatal (msg : String) (state : MetadataHashLoader)
deriving DecidableEq, Repr

/-- The state a `load_from_data` outcome carries. -/
def LoadFromDataResult.state : LoadFromDataResult → MetadataHashLoader
  | LoadFromDataResult.ok s => s
  | LoadFromDataResult.err _ s => s
  | LoadFromDataResult.fatal _ s => s

/-- Whether a `load_from_data` outcome is the fatal abort. -/
def LoadFromDataResult.isFatal : LoadFromDataResult → Bool
  | LoadFromDataResult.fatal _ _ => true
  | _ => false

/-- The `for serialized_hash in serialized_hashes.entry_hashes` loop of
`load_from_data` (lines 165-175): build the `DefId`, insert its hash, and
`assert!(old.is_none())` — a duplicate aborts. -/
def apply_entry_hashes (cnum : CrateNum) :
    MetadataHashLoader → List SerializedMetadataHash → LoadFromDataResult
  | s, [] => LoadFromDataResult.ok s
  | s, e :: rest =>
    let def_id : DefId := ⟨cnum, e.def_index⟩
    let p := fxInsert s.metadata_hashes def_id e.hash
    let s' := { s with metadata_hashes := p.1 }
    if p.2.isNone then apply_entry_hashes cnum s' rest
    else LoadFromDataResult.fatal "already have hash" s'

/-- `MetadataHashLoader::load_from_data` (lines 148-178): decode the leading
svh, `bug!` on mismatch with the expected one, decode the entry sequence and
apply it. -/
def MetadataHashLoader.load_from_data (s : MetadataHashLoader)
    (cnum : CrateNum) (data : ExportPayload) (expected_svh : Svh) :
    LoadFromDataResult :=
  match data.decode_svh with
  | Except.error e => LoadFromDataResult.err e s
  | Except.ok svh_in_hashes_file =>
    if svh_in_hashes_file = expected_svh then
      match data.decode_hashes with
      | Except.error e => LoadFromDataResult.err e s
      | Except.ok serialized_hashes =>
          apply_entry_hashes cnum s serialized_hashes.entry_hashes
    else
      LoadFromDataResult.fatal
        "mismatch between SVH in crate and SVH in incr. comp. hashes" s

/-- Outcome of `load_data`: a normal return or a fatal abort, carrying the
loader state and the user-visible diagnostics emitted via `tcx.sess.err`
(debug logging is not user-visible and is not tracked). -/
inductive LoadDataResult where
  | ok (state : MetadataHashLoader) (diags : List String)
  | fatal (msg : String) (state : MetadataHashLoader) (diags : List String)
deriving DecidableEq, Repr

/-- The state a `load_data` outcome carries. -/
def LoadDataResult.state : LoadDataResult → MetadataHashLoader
  | LoadDataResult.ok s _ => s
  | LoadDataResult.fatal _ s _ => s

/-- The diagnostics a `load_data` outcome carries. -/
def LoadDataResult.diags : LoadDataResult → List String
  | LoadDataResult.ok _ d => d
  | LoadDataResult.fatal _ _ d => d

/-- Whether a `load_data` outcome is a normal return. -/
def LoadDataResult.isOk : LoadDataResult → Bool
  | LoadDataResult.ok _ _ => true
  | _ => false

/-- `MetadataHashLoader::load_data` (lines 91-146): insert the crate's
current svh (`assert!` that it was absent), consult the session-directory
locator, take the non-waiting non-creating shared lock, read the export file
and hand it to `load_from_data`; a decode `Err` becomes a `bug!`, a genuine
read error becomes a `tcx.sess.err` diagnostic. -/
def MetadataHashLoader.load_data (s : MetadataHashLoader) (cnum : CrateNum)
    (tcx : TyCtxtEnv) : LoadDataResult :=
  let svh := tcx.crate_hash cnum
  let p := fxInsert s.crate_hashes cnum svh
  let s1 := { s with crate_hashes := p.1 }
  if p.2.isSome then
    LoadDataResult.fatal "loaded data for crate twice" s1 []
  else
    match tcx.find_metadata_hashes_for cnum with
    | none => LoadDataResult.ok s1 []
    | some session_dir =>
      match tcx.lock_new (lock_file_path session_dir) false false false with
      | Except.error _ =>
          -- could not acquire the lock: debug-logged only, same as absent
          LoadDataResult.ok s1 []
      | Except.ok _ =>
        let hashes_file_path := metadata_hash_import_path session_dir
        match tcx.read_file hashes_file_path with
        | Except.ok (some data) =>
          match s1.load_from_data cnum data svh with
          | LoadFromDataResult.ok s2 => LoadDataResult.ok s2 []
          | LoadFromDataResult.err e s2 =>
              LoadDataResult.fatal
                ("decoding error in dep-graph from " ++ hashes_file_path
                  ++ ": " ++ e) s2 []
          | LoadFromDataResult.fatal m s2 => LoadDataResult.fatal m s2 []
        | Except.ok none => LoadDataResult.ok s1 []
        | Except.error err =>
            LoadDataResult.ok s1
              ["could not load dep information from " ++ hashes_file_path
                ++ ": " ++ err]

/-- Outcome of `metadata_hash`: the fingerprint and loader state on normal
return, a fatal abort, or fuel exhaustion of the loop model; each carries
the diagnostics emitted and the list of crates for which `load_data` was
invoked during the call. -/
inductive MetadataHashResult where
  | ok (fingerprint : Fingerprint) (state : MetadataHashLoader)
      (diags : List String) (loads : List CrateNum)
  | fatal (msg : String) (state : MetadataHashLoader)
      (diags : List String) (loads : List CrateNum)
  | outOfFuel (state : MetadataHashLoader) (diags : List String)
      (loads : List CrateNum)
deriving DecidableEq, Repr

/-- The state a `metadata_hash` outcome carries. -/
def MetadataHashResult.state : MetadataHashResult → MetadataHashLoader
  | MetadataHashResult.ok _ s _ _ => s
  | MetadataHashResult.fatal _ s _ _ => s
  | MetadataHashResult.outOfFuel s _ _ => s

/-- The `load_data` invocations a `metadata_hash` outcome records. -/
def MetadataHashResult.loads : MetadataHashResult → List CrateNum
  | MetadataHashResult.ok _ _ _ l => l
  | MetadataHashResult.fatal _ _ _ l => l
  | MetadataHashResult.outOfFuel _ _ l => l

/-- Whether a `metadata_hash` outcome is the fuel-exhaustion marker. -/
def MetadataHashResult.isOutOfFuel : MetadataHashResult → Bool
  | MetadataHashResult.outOfFuel _ _ _ => true
  | _ => false

/-- The `loop` of `metadata_hash` (lines 69-88), with explicit fuel: check
the per-definition map, then the per-crate map (deriving and caching the
fallback fingerprint), else run `load_data`, `assert!` that the crate is now
present, and repeat.  `diags` and `loads` accumulate across iterations. -/
def metadata_hash_loop (tcx : TyCtxtEnv) (id : DefId) :
    Nat → MetadataHashLoader → List String → List CrateNum →
    MetadataHashResult
  | 0, s, diags, loads => MetadataHashResult.outOfFuel s diags loads
  | fuel + 1, s, diags, loads =>
    match fxGet s.metadata_hashes id with
    | some hash => MetadataHashResult.ok hash s diags loads
    | none =>
      match fxGet s.crate_hashes id.krate with
      | some svh =>
        let fingerprint := svh_to_fingerprint svh
        let p := fxInsert s.metadata_hashes id fingerprint
        MetadataHashResult.ok fingerprint { s with metadata_hashes := p.1 }
          diags loads
      | none =>
        match s.load_data id.krate tcx with
        | LoadDataResult.fatal m s' d =>
            MetadataHashResult.fatal m s' (diags ++ d) (loads ++ [id.krate])
        | LoadDataResult.ok s' d =>
          if (fxGet s'.crate_hashes id.krate).isSome then
            metadata_hash_loop tcx id fuel s' (diags ++ d)
              (loads ++ [id.krate])
          else
            MetadataHashResult.fatal "crate_hashes does not contain key" s'
              (diags ++ d) (loads ++ [id.krate])

/-- `MetadataHashLoader::metadata_hash` (lines 65-89): the
`debug_assert!(id.krate != LOCAL_CRATE)` guard, then the loop.  Fuel 2 is
justified by `metadata_hash_loop` being fuel-independent from 2 upwards
(theorem `c9_loop_terminates_in_two_iterations`). -/
def MetadataHashLoader.metadata_hash (s : MetadataHashLoader) (id : DefId)
    (tcx : TyCtxtEnv) : MetadataHashResult :=
  if id.krate = LOCAL_CRATE then
    MetadataHashResult.fatal "debug_assert failed: id.krate is LOCAL_CRATE"
      s [] []
  else
    metadata_hash_loop tcx id 2 s [] []

/-- Outcome of a whole session: a sequence of `metadata_hash` calls threaded
through the loader state, stopping at the first abort. -/
inductive SessionResult where
  | ok (state : MetadataHashLoader) (diags : List String)
      (loads : List CrateNum)
  | fatal (msg : String) (state : MetadataHashLoader) (diags : List String)
      (loads : List CrateNum)
deriving DecidableEq, Repr

/-- The state a session outcome carries. -/
def SessionResult.state : SessionResult → MetadataHashLoader
  | SessionResult.ok s _ _ => s
  | SessionResult.fatal _ s _ _ => s

/-- The `load_data` invocations a session outcome records. -/
def SessionResult.loads : SessionResult → List CrateNum
  | SessionResult.ok _ _ l => l
  | SessionResult.fatal _ _ _ l => l

/-- Run `metadata_hash` for each queried definition in turn, threading the
loader state (as the closure produced by `metadata_fingerprint` does),
accumulating diagnostics and `load_data` invocations, stopping at a fatal
abort. -/
def run_session (tcx : TyCtxtEnv) :
    List DefId → MetadataHashLoader → List String → List CrateNum →
    SessionResult
  | [], s, diags, loads => SessionResult.ok s diags loads
  | id :: rest, s, diags, loads =>
    match s.metadata_hash id tcx with
    | MetadataHashResult.ok _ s' d l =>
        run_session tcx rest s' (diags ++ d) (loads ++ l)
    | MetadataHashResult.fatal m s' d l =>
        SessionResult.fatal m s' (diags ++ d) (loads ++ l)
    | MetadataHashResult.outOfFuel s' d l =>
        SessionResult.fatal "out of fuel" s' (diags ++ d) (loads ++ l)


/-! ### Concrete environments and payloads used to exercise the model -/

/-- An environment with no prior-session export data for any crate. -/
def tcxTrivial : TyCtxtEnv where
  crate_hash := fun c => ⟨c⟩
  find_metadata_hashes_for := fun _ => none
  lock_new := fun _ _ _ _ => Except.ok ()
  read_file := fun _ => Except.ok none

/-- An environment whose session directory exists but whose lock cannot be
acquired. -/
def tcxLockFail : TyCtxtEnv where
  crate_hash := fun c => ⟨c⟩
  find_metadata_hashes_for := fun _ => some "sess"
  lock_new := fun _ _ _ _ => Except.error "contended"
  read_file := fun _ => Except.ok none

/-- An environment whose export file read fails with a genuine I/O error. -/
def tcxReadFail : TyCtxtEnv where
  crate_hash := fun c => ⟨c⟩
  find_metadata_hashes_for := fun _ => some "sess"
  lock_new := fun _ _ _ _ => Except.ok ()
  read_file := fun _ => Except.error "io error"

/-- An environment serving crate 1 an export payload with one entry, whose
embedded svh matches crate 1's current summary hash. -/
def tcxLoad : TyCtxtEnv where
  crate_hash := fun c => ⟨c + 10⟩
  find_metadata_hashes_for := fun c => if c = 1 then some "sess" else none
  lock_new := fun _ _ _ _ => Except.ok ()
  read_file := fun p =>
    if p = metadata_hash_import_path "sess" then
      Except.ok (some ⟨Except.ok ⟨11⟩, Except.ok ⟨[⟨3, ⟨7, 7⟩⟩]⟩⟩)
    else Except.ok none

/-- A payload whose embedded svh will not match the expected one. -/
def payloadMismatch : ExportPayload :=
  ⟨Except.ok ⟨1⟩, Except.ok ⟨[⟨0, ⟨7, 7⟩⟩]⟩⟩

/-- A payload carrying the same local index twice. -/
def payloadDup : ExportPayload :=
  ⟨Except.ok ⟨1⟩, Except.ok ⟨[⟨0, ⟨7, 7⟩⟩, ⟨0, ⟨8, 8⟩⟩]⟩⟩

/-! ### Basic map lemmas -/

theorem fxGet_insert_self {K V : Type} [DecidableEq K]
    (m : List (K × V)) (k : K) (v : V) :
    fxGet (fxInsert m k v).1 k = some v := by
  simp [fxInsert, fxGet]

theorem fxGet_insert_ne {K V : Type} [DecidableEq K]
    (m : List (K × V)) (k k' : K) (v : V) (h : k' ≠ k) :
    fxGet (fxInsert m k v).1 k' = fxGet m k' := by
  simp [fxInsert, fxGet, h]

theorem fxGet_insert_isSome {K V : Type} [DecidableEq K]
    (m : List (K × V)) (k k' : K) (v : V)
    (h : (fxGet m k').isSome) : (fxGet (fxInsert m k v).1 k').isSome := by
  by_cases hk : k' = k
  · subst hk; simp [fxGet_insert_self]
  · rw [fxGet_insert_ne m k k' v hk]; exact h

/-! ### Lemmas about the decode loop -/

theorem apply_entry_hashes_crate_hashes (cnum : CrateNum)
    (l : List SerializedMetadataHash) (s : MetadataHashLoader) :
    (apply_entry_hashes cnum s l).state.crate_hashes = s.crate_hashes := by
  induction l generalizing s with
  | nil => rfl
  | cons e rest ih =>
    simp only [apply_entry_hashes]
    split
    · exact ih _
    · rfl

theorem apply_entry_hashes_meta_frame (cnum : CrateNum)
    (l : List SerializedMetadataHash) (s : MetadataHashLoader) (d : DefId)
    (hd : d.krate ≠ cnum) :
    fxGet (apply_entry_hashes cnum s l).state.metadata_hashes d =
      fxGet s.metadata_hashes d := by
  induction l generalizing s with
  | nil => rfl
  | cons e rest ih =>
    have hne : d ≠ (⟨cnum, e.def_index⟩ : DefId) := by
      intro h; exact hd (congrArg DefId.krate h)
    simp only [apply_entry_hashes]
    split
    · rw [ih]
      exact fxGet_insert_ne _ _ _ _ hne
    · exact fxGet_insert_ne _ _ _ _ hne

theorem apply_entry_hashes_ok_preserves (cnum : CrateNum)
    (l : List SerializedMetadataHash) (s s2 : MetadataHashLoader)
    (hok : apply_entry_hashes cnum s l = LoadFromDataResult.ok s2)
    (d : DefId) (v : Fingerprint)
    (hv : fxGet s.metadata_hashes d = some v) :
    fxGet s2.metadata_hashes d = some v := by
  induction l generalizing s with
  | nil =>
    cases hok
    exact hv
  | cons e rest ih =>
    simp only [apply_entry_hashes] at hok
    split at hok
    case isTrue hnone =>
      refine ih _ hok ?_
      have hne : d ≠ (⟨cnum, e.def_index⟩ : DefId) := by
        intro h
        rw [h] at hv
        simp [fxInsert, hv] at hnone
      rw [fxGet_insert_ne _ _ _ _ hne]
      exact hv
    case isFalse _ => cases hok

theorem apply_entry_hashes_dup_fatal (cnum : CrateNum)
    (l : List SerializedMetadataHash) (s : MetadataHashLoader)
    (hdup : ¬ (l.map (fun e => e.def_index)).Nodup ∨
      ∃ e ∈ l, (fxGet s.metadata_hashes ⟨cnum, e.def_index⟩).isSome) :
    (apply_entry_hashes cnum s l).isFatal = true := by
  induction l generalizing s with
  | nil =>
    rcases hdup with h | ⟨e, he, _⟩
    · exact absurd List.nodup_nil h
    · exact absurd he (List.not_mem_nil e)
  | cons e rest ih =>
    simp only [apply_entry_hashes]
    split
    case isFalse _ => rfl
    case isTrue hnone =>
      refine ih _ ?_
      rcases hdup with h | ⟨e', he', hsome⟩
      · rw [List.map_cons, List.nodup_cons] at h
        push_neg at h
        by_cases hmem : e.def_index ∈ rest.map (fun e => e.def_index)
        · obtain ⟨e'', he'', hidx⟩ := List.mem_map.mp hmem
          refine Or.inr ⟨e'', he'', ?_⟩
          rw [hidx]
          simp [fxGet_insert_self]
        · exact Or.inl (h hmem)
      · rcases List.mem_cons.mp he' with rfl | hmem
        · rw [Option.isNone_iff_eq_none] at hnone
          simp only [fxInsert] at hnone
          rw [hnone] at hsome
          cases hsome
        · exact Or.inr ⟨e', hmem, fxGet_insert_isSome _ _ _ _ hsome⟩

/-! ### Lemmas about load_from_data -/

theorem load_from_data_crate_hashes (s : MetadataHashLoader)
    (cnum : CrateNum) (data : ExportPayload) (expected : Svh) :
    (s.load_from_data cnum data expected).state.crate_hashes =
      s.crate_hashes := by
  simp only [MetadataHashLoader.load_from_data]
  split
  · rfl
  · split
    · split
      · rfl
      · exact apply_entry_hashes_crate_hashes _ _ _
    · rfl

theorem load_from_data_meta_frame (s : MetadataHashLoader)
    (cnum : CrateNum) (data : ExportPayload) (expected : Svh) (d : DefId)
    (hd : d.krate ≠ cnum) :
    fxGet (s.load_from_data cnum data expected).state.metadata_hashes d =
      fxGet s.metadata_hashes d := by
  simp only [MetadataHashLoader.load_from_data]
  split
  · rfl
  · split
    · split
      · rfl
      · exact apply_entry_hashes_meta_frame _ _ _ _ hd
    · rfl

theorem load_from_data_ok_preserves (s s2 : MetadataHashLoader)
    (cnum : CrateNum) (data : ExportPayload) (expected : Svh)
    (hok : s.load_from_data cnum data expected = LoadFromDataResult.ok s2)
    (d : DefId) (v : Fingerprint)
    (hv : fxGet s.metadata_hashes d = some v) :
    fxGet s2.metadata_hashes d = some v := by
  simp only [MetadataHashLoader.load_from_data] at hok
  split at hok
  · cases hok
  · split at hok
    · split at hok
      · cases hok
      · exact apply_entry_hashes_ok_preserves _ _ _ _ hok d v hv
    · cases hok

/-! ### Lemmas about load_data -/

theorem load_data_crate_hashes (s : MetadataHashLoader) (cnum : CrateNum)
    (tcx : TyCtxtEnv) :
    (s.load_data cnum tcx).state.crate_hashes =
      (fxInsert s.crate_hashes cnum (tcx.crate_hash cnum)).1 := by
  simp only [MetadataHashLoader.load_data]
  split
  · rfl
  · split
    · rfl
    · split
      · rfl
      · split
        · rename_i data heq
          have hs := load_from_data_crate_hashes
            { s with crate_hashes :=
                (fxInsert s.crate_hashes cnum (tcx.crate_hash cnum)).1 }
            cnum data (tcx.crate_hash cnum)
          cases hlfd : MetadataHashLoader.load_from_data
              { s with crate_hashes :=
                  (fxInsert s.crate_hashes cnum (tcx.crate_hash cnum)).1 }
              cnum data (tcx.crate_hash cnum) <;> (rw [hlfd] at hs; exact hs)
        · rfl
        · rfl

theorem load_data_meta_frame (s : MetadataHashLoader) (cnum : CrateNum)
    (tcx : TyCtxtEnv) (d : DefId) (hd : d.krate ≠ cnum) :
    fxGet (s.load_data cnum tcx).state.metadata_hashes d =
      fxGet s.metadata_hashes d := by
  simp only [MetadataHashLoader.load_data]
  split
  · rfl
  · split
    · rfl
    · split
      · rfl
      · split
        · rename_i data heq
          have hs := load_from_data_meta_frame
            { s with crate_hashes :=
                (fxInsert s.crate_hashes cnum (tcx.crate_hash cnum)).1 }
            cnum data (tcx.crate_hash cnum) d hd
          cases hlfd : MetadataHashLoader.load_from_data
              { s with crate_hashes :=
                  (fxInsert s.crate_hashes cnum (tcx.crate_hash cnum)).1 }
              cnum data (tcx.crate_hash cnum) <;> (rw [hlfd] at hs; exact hs)
        · rfl
        · rfl

theorem load_data_ok_preserves_meta (s s' : MetadataHashLoader)
    (cnum : CrateNum) (tcx : TyCtxtEnv) (diags : List String)
    (hok : s.load_data cnum tcx = LoadDataResult.ok s' diags)
    (d : DefId) (v : Fingerprint)
    (hv : fxGet s.metadata_hashes d = some v) :
    fxGet s'.metadata_hashes d = some v := by
  simp only [MetadataHashLoader.load_data] at hok
  split at hok
  · cases hok
  · split at hok
    · cases hok
      exact hv
    · split at hok
      · cases hok
        exact hv
      · split at hok
        · rename_i data heq
          split at hok
          · rename_i s2 hlfd
            cases hok
            exact load_from_data_ok_preserves _ _ cnum data
              (tcx.crate_hash cnum) hlfd d v hv
          · cases hok
          · cases hok
        · cases hok
          exact hv
        · cases hok
          exact hv

/-! ### Claim C5 -/

/-- C5: `HashContext::hash` returns `some` — the fingerprint from the
session's dependency-graph identity store for that exact node — exactly when
the node's kind is one of the five designated input kinds (Krate,
InScopeTraits, Hir, MetaData, HirBody), and `none` for every other kind; it
is a pure function, so it has no side effects. -/
theorem c5_hash_routes_input_kinds (hcx : HashContext) (n : DepNode) :
    hcx.hash n =
      if n.kind ∈ inputDepKinds then some (hcx.dep_graph_fingerprint_of n)
      else none := by
  cases hk : n.kind <;> simp [HashContext.hash, inputDepKinds, hk]

/-! ### Claim C4 -/

/-- C4: when the decoded leading summary hash differs from the expected one,
`load_from_data` aborts with the fatal internal-consistency error, and the
state it aborts in is exactly the input state — no (local-index, fingerprint)
pair of the payload has been applied. -/
theorem c4_svh_mismatch_fatal_before_apply (s : MetadataHashLoader)
    (cnum : CrateNum) (data : ExportPayload) (expected svh_file : Svh)
    (hdec : data.decode_svh = Except.ok svh_file)
    (hne : svh_file ≠ expected) :
    s.load_from_data cnum data expected =
      LoadFromDataResult.fatal
        "mismatch between SVH in crate and SVH in incr. comp. hashes" s := by
  simp [MetadataHashLoader.load_from_data, hdec, hne]

/-- Witness for C4 at a concrete mismatching payload. -/
theorem c4_svh_mismatch_fatal_before_apply_witness :
    MetadataHashLoader.load_from_data ⟨[], []⟩ 1 payloadMismatch ⟨2⟩ =
      LoadFromDataResult.fatal
        "mismatch between SVH in crate and SVH in incr. comp. hashes"
        ⟨[], []⟩ :=
  c4_svh_mismatch_fatal_before_apply ⟨[], []⟩ 1 payloadMismatch ⟨2⟩ ⟨1⟩ rfl
    (by decide)

/-! ### Claim C6 -/

/-- C6: when the non-blocking, non-creating shared lock on the session
directory's lock file cannot be acquired, `load_data` returns normally with
only the per-unit summary-hash insertion applied (the per-definition map is
untouched), emits no user-visible diagnostic and surfaces no error, and its
outcome is identical to running `load_data` in an environment where no
export directory exists for the unit at all. -/
theorem c6_lock_failure_soft (s : MetadataHashLoader) (cnum : CrateNum)
    (tcx : TyCtxtEnv) (session_dir e : String)
    (habs : fxGet s.crate_hashes cnum = none)
    (hfind : tcx.find_metadata_hashes_for cnum = some session_dir)
    (hlock : tcx.lock_new (lock_file_path session_dir) false false false =
      Except.error e) :
    s.load_data cnum tcx =
      LoadDataResult.ok
        { s with crate_hashes :=
            (fxInsert s.crate_hashes cnum (tcx.crate_hash cnum)).1 } [] ∧
    s.load_data cnum tcx =
      MetadataHashLoader.load_data s cnum
        { tcx with find_metadata_hashes_for := fun _ => none } ∧
    s.load_data cnum tcx =
      MetadataHashLoader.load_data s cnum
        { tcx with lock_new := fun _ _ _ _ => Except.ok (),
                   read_file := fun _ => Except.ok none } := by
  refine ⟨?_, ?_, ?_⟩
  · simp [MetadataHashLoader.load_data, fxInsert, habs, hfind, hlock]
  · simp [MetadataHashLoader.load_data, fxInsert, habs, hfind, hlock]
  · simp [MetadataHashLoader.load_data, fxInsert, habs, hfind, hlock]

/-- Witness for C6 at a concrete lock-failing environment. -/
theorem c6_lock_failure_soft_witness :
    MetadataHashLoader.load_data ⟨[], []⟩ 1 tcxLockFail =
      LoadDataResult.ok ⟨[], [(1, ⟨1⟩)]⟩ [] ∧
    MetadataHashLoader.load_data ⟨[], []⟩ 1 tcxLockFail =
      MetadataHashLoader.load_data ⟨[], []⟩ 1
        { tcxLockFail with find_metadata_hashes_for := fun _ => none } ∧
    MetadataHashLoader.load_data ⟨[], []⟩ 1 tcxLockFail =
      MetadataHashLoader.load_data ⟨[], []⟩ 1
        { tcxLockFail with lock_new := fun _ _ _ _ => Except.ok (),
                           read_file := fun _ => Except.ok none } :=
  c6_lock_failure_soft ⟨[], []⟩ 1 tcxLockFail "sess" "contended" rfl rfl rfl

/-! ### Claim C7 -/

/-- C7: when reading the export file fails with a genuine I/O error,
`load_data` emits exactly one user-visible diagnostic through the session
error sink, still returns normally (non-fatal), and inserts no
per-definition entry — only the per-unit summary hash — so the unit's
definitions resolve via the summary-hash fallback. -/
theorem c7_read_error_diagnostic (s : MetadataHashLoader) (cnum : CrateNum)
    (tcx : TyCtxtEnv) (session_dir err : String)
    (habs : fxGet s.crate_hashes cnum = none)
    (hfind : tcx.find_metadata_hashes_for cnum = some session_dir)
    (hlock : tcx.lock_new (lock_file_path session_dir) false false false =
      Except.ok ())
    (hread : tcx.read_file (metadata_hash_import_path session_dir) =
      Except.error err) :
    s.load_data cnum tcx =
      LoadDataResult.ok
        { s with crate_hashes :=
            (fxInsert s.crate_hashes cnum (tcx.crate_hash cnum)).1 }
        ["could not load dep information from " ++
          metadata_hash_import_path session_dir ++ ": " ++ err] := by
  simp [MetadataHashLoader.load_data, fxInsert, habs, hfind, hlock, hread]

/-- Witness for C7 at a concrete read-failing environment. -/
theorem c7_read_error_diagnostic_witness :
    MetadataHashLoader.load_data ⟨[], []⟩ 1 tcxReadFail =
      LoadDataResult.ok ⟨[], [(1, ⟨1⟩)]⟩
        ["could not load dep information from " ++
          metadata_hash_import_path "sess" ++ ": " ++ "io error"] :=
  c7_read_error_diagnostic ⟨[], []⟩ 1 tcxReadFail "sess" "io error" rfl rfl
    rfl rfl

/-! ### Claim C8 -/

/-- C8: inserting a duplicate key into either in-memory map is a fatal
assertion failure, never a normal code path: a decoded export payload that
repeats a local index (or collides with a pre-existing per-definition entry
of that unit) makes `load_from_data` abort, and entering `load_data` for a
unit already present in the per-unit map aborts with the
loaded-twice internal error. -/
theorem c8_duplicate_key_fatal (s : MetadataHashLoader) (cnum : CrateNum)
    (tcx : TyCtxtEnv) (data : ExportPayload) (expected : Svh)
    (shs : SerializedMetadataHashes)
    (hdec : data.decode_svh = Except.ok expected)
    (hh : data.decode_hashes = Except.ok shs)
    (hdup : ¬ (shs.entry_hashes.map (fun e => e.def_index)).Nodup ∨
      ∃ e ∈ shs.entry_hashes,
        (fxGet s.metadata_hashes ⟨cnum, e.def_index⟩).isSome)
    (s2 : MetadataHashLoader) (svh0 : Svh)
    (hpresent : fxGet s2.crate_hashes cnum = some svh0) :
    (s.load_from_data cnum data expected).isFatal = true ∧
    s2.load_data cnum tcx =
      LoadDataResult.fatal "loaded data for crate twice"
        { s2 with crate_hashes :=
            (fxInsert s2.crate_hashes cnum (tcx.crate_hash cnum)).1 } [] := by
  constructor
  · have hrw : s.load_from_data cnum data expected =
        apply_entry_hashes cnum s shs.entry_hashes := by
      simp [MetadataHashLoader.load_from_data, hdec, hh]
    rw [hrw]
    exact apply_entry_hashes_dup_fatal cnum shs.entry_hashes s hdup
  · simp [MetadataHashLoader.load_data, fxInsert, hpresent]

/-- Witness for C8: a payload repeating local index 0, and a `load_data`
entered for a crate already recorded. -/
theorem c8_duplicate_key_fatal_witness :
    (MetadataHashLoader.load_from_data ⟨[], []⟩ 1 payloadDup ⟨1⟩).isFatal =
      true ∧
    MetadataHashLoader.load_data ⟨[], [(1, ⟨9⟩)]⟩ 1 tcxTrivial =
      LoadDataResult.fatal "loaded data for crate twice"
        ⟨[], [(1, ⟨1⟩), (1, ⟨9⟩)]⟩ [] :=
  c8_duplicate_key_fatal ⟨[], []⟩ 1 tcxTrivial payloadDup ⟨1⟩
    ⟨[⟨0, ⟨7, 7⟩⟩, ⟨0, ⟨8, 8⟩⟩]⟩ rfl rfl (Or.inl (by decide))
    ⟨[], [(1, ⟨9⟩)]⟩ ⟨9⟩ rfl

/-! ### Claim C10 -/

/-- C10: `load_data` for a unit modifies only state keyed by that unit: on
every normal return it has recorded the unit's current summary hash, left
every other unit's per-unit entry unchanged, left every per-definition entry
of other units unchanged, and preserved every pre-existing per-definition
entry — on the lock-failure, file-absent and read-error paths as well as the
successful decode path. -/
theorem c10_load_data_frame (s s' : MetadataHashLoader) (cnum : CrateNum)
    (tcx : TyCtxtEnv) (diags : List String)
    (habs : fxGet s.crate_hashes cnum = none)
    (hok : s.load_data cnum tcx = LoadDataResult.ok s' diags) :
    fxGet s'.crate_hashes cnum = some (tcx.crate_hash cnum) ∧
    (∀ c : CrateNum, c ≠ cnum →
      fxGet s'.crate_hashes c = fxGet s.crate_hashes c) ∧
    (∀ d : DefId, d.krate ≠ cnum →
      fxGet s'.metadata_hashes d = fxGet s.metadata_hashes d) ∧
    (∀ d : DefId, ∀ v : Fingerprint, fxGet s.metadata_hashes d = some v →
      fxGet s'.metadata_hashes d = some v) := by
  have hcr : s'.crate_hashes =
      (fxInsert s.crate_hashes cnum (tcx.crate_hash cnum)).1 := by
    have h := load_data_crate_hashes s cnum tcx
    rw [hok] at h
    exact h
  refine ⟨?_, ?_, ?_, ?_⟩
  · rw [hcr]
    exact fxGet_insert_self _ _ _
  · intro c hc
    rw [hcr]
    exact fxGet_insert_ne _ _ _ _ hc
  · intro d hd
    have h := load_data_meta_frame s cnum tcx d hd
    rw [hok] at h
    exact h
  · intro d v hv
    exact load_data_ok_preserves_meta s s' cnum tcx diags hok d v hv

/-- Witness for C10 at a successful concrete load of crate 1's export data,
next to a pre-existing entry for crate 2. -/
theorem c10_load_data_frame_witness :
    fxGet
      (MetadataHashLoader.mk [(⟨1, 3⟩, ⟨7, 7⟩), (⟨2, 5⟩, ⟨1, 2⟩)]
        [(1, ⟨11⟩)]).crate_hashes 1 = some (tcxLoad.crate_hash 1) ∧
    fxGet
      (MetadataHashLoader.mk [(⟨1, 3⟩, ⟨7, 7⟩), (⟨2, 5⟩, ⟨1, 2⟩)]
        [(1, ⟨11⟩)]).crate_hashes 2 =
      fxGet (MetadataHashLoader.mk [(⟨2, 5⟩, ⟨1, 2⟩)] []).crate_hashes 2 ∧
    fxGet
      (MetadataHashLoader.mk [(⟨1, 3⟩, ⟨7, 7⟩), (⟨2, 5⟩, ⟨1, 2⟩)]
        [(1, ⟨11⟩)]).metadata_hashes ⟨2, 5⟩ = some ⟨1, 2⟩ := by
  have h := c10_load_data_frame ⟨[(⟨2, 5⟩, ⟨1, 2⟩)], []⟩
    ⟨[(⟨1, 3⟩, ⟨7, 7⟩), (⟨2, 5⟩, ⟨1, 2⟩)], [(1, ⟨11⟩)]⟩ 1 tcxLoad [] rfl
    (by decide)
  exact ⟨h.1, h.2.1 2 (by decide), h.2.2.2 ⟨2, 5⟩ ⟨1, 2⟩ (by decide)⟩

/-! ### Lemmas about the metadata_hash loop -/

theorem metadata_hash_loop_crate_present (tcx : TyCtxtEnv) (id : DefId)
    (s : MetadataHashLoader) (diags : List String) (loads : List CrateNum)
    (m : Nat) (svh : Svh) (h : fxGet s.crate_hashes id.krate = some svh) :
    metadata_hash_loop tcx id (m + 1) s diags loads =
      metadata_hash_loop tcx id 1 s diags loads := by
  cases hmeta : fxGet s.metadata_hashes id with
  | some hash => simp [metadata_hash_loop, hmeta]
  | none => simp [metadata_hash_loop, hmeta, h]

theorem metadata_hash_loop_one_crate_present (tcx : TyCtxtEnv) (id : DefId)
    (s : MetadataHashLoader) (diags : List String) (loads : List CrateNum)
    (svh : Svh) (h : fxGet s.crate_hashes id.krate = some svh) :
    metadata_hash_loop tcx id 1 s diags loads =
      match fxGet s.metadata_hashes id with
      | some hash => MetadataHashResult.ok hash s diags loads
      | none =>
          MetadataHashResult.ok (svh_to_fingerprint svh)
            { s with metadata_hashes :=
                (fxInsert s.metadata_hashes id (svh_to_fingerprint svh)).1 }
            diags loads := by
  cases hmeta : fxGet s.metadata_hashes id with
  | some hash => simp [metadata_hash_loop, hmeta]
  | none => simp [metadata_hash_loop, hmeta, h]

theorem metadata_hash_loop_crate_present_frame (tcx : TyCtxtEnv) (id : DefId)
    (s : MetadataHashLoader) (diags : List String) (loads : List CrateNum)
    (fuel : Nat) (svh : Svh) (h : fxGet s.crate_hashes id.krate = some svh) :
    (metadata_hash_loop tcx id fuel s diags loads).loads = loads ∧
    (metadata_hash_loop tcx id fuel s diags loads).state.crate_hashes =
      s.crate_hashes := by
  cases fuel with
  | zero =>
    simp [metadata_hash_loop, MetadataHashResult.loads,
      MetadataHashResult.state]
  | succ m =>
    cases hmeta : fxGet s.metadata_hashes id with
    | some hash =>
      simp [metadata_hash_loop, hmeta, MetadataHashResult.loads,
        MetadataHashResult.state]
    | none =>
      simp [metadata_hash_loop, hmeta, h, MetadataHashResult.loads,
        MetadataHashResult.state]

theorem metadata_hash_loop_one_not_oof (tcx : TyCtxtEnv) (id : DefId)
    (s : MetadataHashLoader) (diags : List String) (loads : List CrateNum)
    (svh : Svh) (h : fxGet s.crate_hashes id.krate = some svh) :
    (metadata_hash_loop tcx id 1 s diags loads).isOutOfFuel = false := by
  cases hmeta : fxGet s.metadata_hashes id with
  | some hash =>
    simp [metadata_hash_loop, hmeta, MetadataHashResult.isOutOfFuel]
  | none =>
    simp [metadata_hash_loop, hmeta, h, MetadataHashResult.isOutOfFuel]

theorem metadata_hash_loop_ok_cached (tcx : TyCtxtEnv) (id : DefId)
    (fuel : Nat) :
    ∀ (s : MetadataHashLoader) (diags : List String) (loads : List CrateNum)
      (fp : Fingerprint) (s' : MetadataHashLoader) (d : List String)
      (l : List CrateNum),
      metadata_hash_loop tcx id fuel s diags loads =
        MetadataHashResult.ok fp s' d l →
      fxGet s'.metadata_hashes id = some fp := by
  induction fuel with
  | zero =>
    intro s diags loads fp s' d l h
    simp [metadata_hash_loop] at h
  | succ n ih =>
    intro s diags loads fp s' d l h
    cases hmeta : fxGet s.metadata_hashes id with
    | some hash =>
      simp only [metadata_hash_loop, hmeta] at h
      cases h
      exact hmeta
    | none =>
      cases hcr : fxGet s.crate_hashes id.krate with
      | some svh =>
        simp only [metadata_hash_loop, hmeta, hcr] at h
        cases h
        exact fxGet_insert_self _ _ _
      | none =>
        simp only [metadata_hash_loop, hmeta, hcr] at h
        cases hld : MetadataHashLoader.load_data s id.krate tcx with
        | fatal m s2 d2 =>
          rw [hld] at h
          cases h
        | ok s2 d2 =>
          simp only [hld] at h
          split at h
          · exact ih s2 _ _ fp s' d l h
          · cases h

theorem metadata_hash_loop_crate_mono (tcx : TyCtxtEnv) (id : DefId)
    (fuel : Nat) :
    ∀ (s : MetadataHashLoader) (diags : List String) (loads : List CrateNum)
      (c : CrateNum), (fxGet s.crate_hashes c).isSome →
      (fxGet
        (metadata_hash_loop tcx id fuel s diags loads).state.crate_hashes
        c).isSome := by
  induction fuel with
  | zero =>
    intro s diags loads c hc
    simpa [metadata_hash_loop, MetadataHashResult.state] using hc
  | succ n ih =>
    intro s diags loads c hc
    cases hmeta : fxGet s.metadata_hashes id with
    | some hash =>
      simpa [metadata_hash_loop, hmeta, MetadataHashResult.state] using hc
    | none =>
      cases hcr : fxGet s.crate_hashes id.krate with
      | some svh =>
        simpa [metadata_hash_loop, hmeta, hcr, MetadataHashResult.state]
          using hc
      | none =>
        have hmono :
            (fxGet (s.load_data id.krate tcx).state.crate_hashes c).isSome :=
          by
          rw [load_data_crate_hashes]
          exact fxGet_insert_isSome _ _ _ _ hc
        cases hld : MetadataHashLoader.load_data s id.krate tcx with
        | fatal m s2 d2 =>
          rw [hld] at hmono
          simpa [metadata_hash_loop, hmeta, hcr, hld,
            MetadataHashResult.state] using hmono
        | ok s2 d2 =>
          rw [hld] at hmono
          by_cases hp : (fxGet s2.crate_hashes id.krate).isSome = true
          · have hrec : metadata_hash_loop tcx id (n + 1) s diags loads =
                metadata_hash_loop tcx id n s2 (diags ++ d2)
                  (loads ++ [id.krate]) := by
              simp [metadata_hash_loop, hmeta, hcr, hld, hp]
            rw [hrec]
            exact ih s2 _ _ c hmono
          · simp only [metadata_hash_loop, hmeta, hcr, hld] at hp ⊢
            simpa [hp, MetadataHashResult.state] using hmono

theorem metadata_hash_loop_loads_shape (tcx : TyCtxtEnv) (id : DefId)
    (fuel : Nat) :
    ∀ (s : MetadataHashLoader) (diags : List String)
      (loads : List CrateNum),
      (metadata_hash_loop tcx id fuel s diags loads).loads = loads ∨
      ((metadata_hash_loop tcx id fuel s diags loads).loads =
          loads ++ [id.krate] ∧
        fxGet s.crate_hashes id.krate = none ∧
        (fxGet
          (metadata_hash_loop tcx id fuel s diags loads).state.crate_hashes
          id.krate).isSome) := by
  induction fuel with
  | zero =>
    intro s diags loads
    left
    simp [metadata_hash_loop, MetadataHashResult.loads]
  | succ n ih =>
    intro s diags loads
    cases hmeta : fxGet s.metadata_hashes id with
    | some hash =>
      left
      simp [metadata_hash_loop, hmeta, MetadataHashResult.loads]
    | none =>
      cases hcr : fxGet s.crate_hashes id.krate with
      | some svh =>
        left
        simp [metadata_hash_loop, hmeta, hcr, MetadataHashResult.loads]
      | none =>
        have hpost :
            (fxGet (s.load_data id.krate tcx).state.crate_hashes
              id.krate).isSome := by
          rw [load_data_crate_hashes]
          simp [fxGet_insert_self]
        cases hld : MetadataHashLoader.load_data s id.krate tcx with
        | fatal m s2 d2 =>
          rw [hld] at hpost
          right
          refine ⟨?_, rfl, ?_⟩
          · simp [metadata_hash_loop, hmeta, hcr, hld,
              MetadataHashResult.loads]
          · simpa [metadata_hash_loop, hmeta, hcr, hld,
              MetadataHashResult.state] using hpost
        | ok s2 d2 =>
          rw [hld] at hpost
          simp only [LoadDataResult.state] at hpost
          obtain ⟨svh2, hsvh2⟩ := Option.isSome_iff_exists.mp hpost
          have hrec : metadata_hash_loop tcx id (n + 1) s diags loads =
              metadata_hash_loop tcx id n s2 (diags ++ d2)
                (loads ++ [id.krate]) := by
            simp [metadata_hash_loop, hmeta, hcr, hld, hsvh2]
          have hframe := metadata_hash_loop_crate_present_frame tcx id s2
            (diags ++ d2) (loads ++ [id.krate]) n svh2 hsvh2
          right
          refine ⟨?_, rfl, ?_⟩
          · rw [hrec]
            exact hframe.1
          · rw [hrec, hframe.2]
            exact hpost

theorem metadata_hash_loop_two_not_oof (tcx : TyCtxtEnv) (id : DefId)
    (s : MetadataHashLoader) (diags : List String) (loads : List CrateNum) :
    (metadata_hash_loop tcx id 2 s diags loads).isOutOfFuel = false := by
  cases hmeta : fxGet s.metadata_hashes id with
  | some hash =>
    simp [metadata_hash_loop, hmeta, MetadataHashResult.isOutOfFuel]
  | none =>
    cases hcr : fxGet s.crate_hashes id.krate with
    | some svh =>
      simp [metadata_hash_loop, hmeta, hcr, MetadataHashResult.isOutOfFuel]
    | none =>
      cases hld : MetadataHashLoader.load_data s id.krate tcx with
      | fatal m s2 d2 =>
        simp [metadata_hash_loop, hmeta, hcr, hld,
          MetadataHashResult.isOutOfFuel]
      | ok s2 d2 =>
        by_cases hp : (fxGet s2.crate_hashes id.krate).isSome = true
        · obtain ⟨svh2, hsvh2⟩ := Option.isSome_iff_exists.mp hp
          have h1 : metadata_hash_loop tcx id 2 s diags loads =
              metadata_hash_loop tcx id 1 s2 (diags ++ d2)
                (loads ++ [id.krate]) := by
            simp [metadata_hash_loop, hmeta, hcr, hld, hsvh2]
          rw [h1]
          exact metadata_hash_loop_one_not_oof tcx id s2 _ _ svh2 hsvh2
        · simp [metadata_hash_loop, hmeta, hcr, hld, hp,
            MetadataHashResult.isOutOfFuel]

/-! ### Claim C9 -/

/-- C9: the retry loop of `metadata_hash` terminates for every call in at
most two iterations: running it with any larger fuel gives the same outcome
as fuel 2, the fuel-2 run never exhausts its fuel (because `load_data`
unconditionally records the queried unit's summary hash before returning,
so the second iteration resolves via the cache or the fallback), and
`metadata_hash` itself never exhausts fuel. -/
theorem c9_loop_terminates_in_two_iterations (tcx : TyCtxtEnv) (id : DefId)
    (s : MetadataHashLoader) (diags : List String) (loads : List CrateNum)
    (n : Nat) :
    metadata_hash_loop tcx id (n + 2) s diags loads =
      metadata_hash_loop tcx id 2 s diags loads ∧
    (metadata_hash_loop tcx id 2 s diags loads).isOutOfFuel = false ∧
    (s.metadata_hash id tcx).isOutOfFuel = false := by
  refine ⟨?_, metadata_hash_loop_two_not_oof tcx id s diags loads, ?_⟩
  · cases hmeta : fxGet s.metadata_hashes id with
    | some hash => simp [metadata_hash_loop, hmeta]
    | none =>
      cases hcr : fxGet s.crate_hashes id.krate with
      | some svh => simp [metadata_hash_loop, hmeta, hcr]
      | none =>
        cases hld : MetadataHashLoader.load_data s id.krate tcx with
        | fatal m s2 d2 => simp [metadata_hash_loop, hmeta, hcr, hld]
        | ok s2 d2 =>
          by_cases hp : (fxGet s2.crate_hashes id.krate).isSome = true
          · obtain ⟨svh2, hsvh2⟩ := Option.isSome_iff_exists.mp hp
            have hL : metadata_hash_loop tcx id (n + 2) s diags loads =
                metadata_hash_loop tcx id (n + 1) s2 (diags ++ d2)
                  (loads ++ [id.krate]) := by
              simp [metadata_hash_loop, hmeta, hcr, hld, hsvh2]
            have hR : metadata_hash_loop tcx id 2 s diags loads =
                metadata_hash_loop tcx id 1 s2 (diags ++ d2)
                  (loads ++ [id.krate]) := by
              simp [metadata_hash_loop, hmeta, hcr, hld, hsvh2]
            rw [hL, hR]
            exact metadata_hash_loop_crate_present tcx id s2 _ _ n svh2 hsvh2
          · simp [metadata_hash_loop, hmeta, hcr, hld, hp]
  · by_cases hk : id.krate = LOCAL_CRATE
    · simp [MetadataHashLoader.metadata_hash, hk,
        MetadataHashResult.isOutOfFuel]
    · simpa [MetadataHashLoader.metadata_hash, hk] using
        metadata_hash_loop_two_not_oof tcx id s [] []

/-! ### Claim C2 -/

theorem metadata_hash_loop_ok_preserves_meta (tcx : TyCtxtEnv) (e : DefId)
    (fuel : Nat) :
    ∀ (s : MetadataHashLoader) (diags : List String) (loads : List CrateNum)
      (fp : Fingerprint) (s2 : MetadataHashLoader) (d2 : List String)
      (l2 : List CrateNum) (d : DefId) (v : Fingerprint),
      metadata_hash_loop tcx e fuel s diags loads =
        MetadataHashResult.ok fp s2 d2 l2 →
      fxGet s.metadata_hashes d = some v →
      fxGet s2.metadata_hashes d = some v := by
  induction fuel with
  | zero =>
    intro s diags loads fp s2 d2 l2 d v h hv
    simp [metadata_hash_loop] at h
  | succ n ih =>
    intro s diags loads fp s2 d2 l2 d v h hv
    cases hmeta : fxGet s.metadata_hashes e with
    | some hash =>
      simp only [metadata_hash_loop, hmeta] at h
      cases h
      exact hv
    | none =>
      cases hcr : fxGet s.crate_hashes e.krate with
      | some svh =>
        simp only [metadata_hash_loop, hmeta, hcr] at h
        cases h
        have hne : d ≠ e := by
          intro hde
          rw [hde, hmeta] at hv
          cases hv
        rw [fxGet_insert_ne _ _ _ _ hne]
        exact hv
      | none =>
        simp only [metadata_hash_loop, hmeta, hcr] at h
        cases hld : MetadataHashLoader.load_data s e.krate tcx with
        | fatal m s3 d3 =>
          rw [hld] at h
          cases h
        | ok s3 d3 =>
          simp only [hld] at h
          split at h
          · exact ih s3 _ _ fp s2 d2 l2 d v h
              (load_data_ok_preserves_meta s s3 e.krate tcx d3 hld d v hv)
          · cases h

theorem metadata_hash_ok_preserves_meta (tcx : TyCtxtEnv) (e : DefId)
    (s : MetadataHashLoader) (fp : Fingerprint) (s2 : MetadataHashLoader)
    (d2 : List String) (l2 : List CrateNum) (d : DefId) (v : Fingerprint)
    (h : s.metadata_hash e tcx = MetadataHashResult.ok fp s2 d2 l2)
    (hv : fxGet s.metadata_hashes d = some v) :
    fxGet s2.metadata_hashes d = some v := by
  by_cases hk : e.krate = LOCAL_CRATE
  · simp [MetadataHashLoader.metadata_hash, hk] at h
  · have hloop : metadata_hash_loop tcx e 2 s [] [] =
        MetadataHashResult.ok fp s2 d2 l2 := by
      simpa [MetadataHashLoader.metadata_hash, hk] using h
    exact metadata_hash_loop_ok_preserves_meta tcx e 2 s [] [] fp s2 d2 l2
      d v hloop hv

theorem run_session_ok_preserves_meta (tcx : TyCtxtEnv) (ids : List DefId) :
    ∀ (s : MetadataHashLoader) (diags : List String) (loads : List CrateNum)
      (s2 : MetadataHashLoader) (diags2 : List String)
      (loads2 : List CrateNum) (d : DefId) (v : Fingerprint),
      run_session tcx ids s diags loads =
        SessionResult.ok s2 diags2 loads2 →
      fxGet s.metadata_hashes d = some v →
      fxGet s2.metadata_hashes d = some v := by
  induction ids with
  | nil =>
    intro s diags loads s2 diags2 loads2 d v h hv
    simp only [run_session] at h
    cases h
    exact hv
  | cons id rest ih =>
    intro s diags loads s2 diags2 loads2 d v h hv
    simp only [run_session] at h
    cases hr : s.metadata_hash id tcx with
    | ok fp3 s3 d3 l3 =>
      simp only [hr] at h
      exact ih s3 _ _ s2 diags2 loads2 d v h
        (metadata_hash_ok_preserves_meta tcx id s fp3 s3 d3 l3 d v hr hv)
    | fatal m s3 d3 l3 =>
      simp only [hr] at h
      cases h
    | outOfFuel s3 d3 l3 =>
      simp only [hr] at h
      cases h

/-- C2: once `metadata_hash` has returned a fingerprint `fp` for a
definition, every subsequent call with the same definition in the same
session returns the identical fingerprint from the per-definition map: after
any sequence of intervening `metadata_hash` calls for other queries (a
`run_session` continuation from the post-state that returns normally), the
repeat call answers `fp` with the state unchanged, no diagnostic, and no
`load_data` invocation — the only path to the locator, the lock and the file
read. -/
theorem c2_cache_hit_stability (tcx : TyCtxtEnv) (s : MetadataHashLoader)
    (id : DefId) (fp : Fingerprint) (s' : MetadataHashLoader)
    (d : List String) (l : List CrateNum) (ids : List DefId)
    (diags : List String) (loads : List CrateNum)
    (s2 : MetadataHashLoader) (diags2 : List String) (loads2 : List CrateNum)
    (h : s.metadata_hash id tcx = MetadataHashResult.ok fp s' d l)
    (hrun : run_session tcx ids s' diags loads =
      SessionResult.ok s2 diags2 loads2) :
    s2.metadata_hash id tcx = MetadataHashResult.ok fp s2 [] [] := by
  by_cases hk : id.krate = LOCAL_CRATE
  · simp [MetadataHashLoader.metadata_hash, hk] at h
  · have hloop : metadata_hash_loop tcx id 2 s [] [] =
        MetadataHashResult.ok fp s' d l := by
      simpa [MetadataHashLoader.metadata_hash, hk] using h
    have hcached :=
      metadata_hash_loop_ok_cached tcx id 2 s [] [] fp s' d l hloop
    have hpers := run_session_ok_preserves_meta tcx ids s' diags loads s2
      diags2 loads2 id fp hrun hcached
    simp [MetadataHashLoader.metadata_hash, hk, metadata_hash_loop, hpers]

/-- Witness for C2: definition (1,0) is first resolved by a loading call
from the empty state; after an intervening session querying (2,7) — which
loads unit 2 and grows both maps — the repeat call for (1,0) still answers
the original fingerprint from the cache. -/
theorem c2_cache_hit_stability_witness :
    MetadataHashLoader.metadata_hash
        ⟨[(⟨2, 7⟩, ⟨2, 2⟩), (⟨1, 0⟩, ⟨1, 1⟩)], [(2, ⟨2⟩), (1, ⟨1⟩)]⟩
        ⟨1, 0⟩ tcxTrivial =
      MetadataHashResult.ok ⟨1, 1⟩
        ⟨[(⟨2, 7⟩, ⟨2, 2⟩), (⟨1, 0⟩, ⟨1, 1⟩)], [(2, ⟨2⟩), (1, ⟨1⟩)]⟩ [] [] :=
  c2_cache_hit_stability tcxTrivial ⟨[], []⟩ ⟨1, 0⟩ ⟨1, 1⟩
    ⟨[(⟨1, 0⟩, ⟨1, 1⟩)], [(1, ⟨1⟩)]⟩ [] [1] [⟨2, 7⟩] [] []
    ⟨[(⟨2, 7⟩, ⟨2, 2⟩), (⟨1, 0⟩, ⟨1, 1⟩)], [(2, ⟨2⟩), (1, ⟨1⟩)]⟩ [] [2]
    (by decide) (by decide)

/-! ### Claim C3 -/

/-- C3: for a definition whose unit has a summary hash recorded but no
per-definition fingerprint loaded, `metadata_hash` returns exactly
`svh_to_fingerprint svh = Fingerprint.from_smaller_hash svh.as_u64` of that
unit's summary hash, inserts that value into the per-definition map under
the definition before returning (so later queries are pure cache hits), and
does so with no diagnostic and no `load_data` invocation. -/
theorem c3_fallback_correctness (tcx : TyCtxtEnv) (s : MetadataHashLoader)
    (id : DefId) (svh : Svh)
    (hk : id.krate ≠ LOCAL_CRATE)
    (hm : fxGet s.metadata_hashes id = none)
    (hc : fxGet s.crate_hashes id.krate = some svh) :
    s.metadata_hash id tcx =
      MetadataHashResult.ok (svh_to_fingerprint svh)
        { s with metadata_hashes :=
            (fxInsert s.metadata_hashes id (svh_to_fingerprint svh)).1 }
        [] [] ∧
    fxGet (fxInsert s.metadata_hashes id (svh_to_fingerprint svh)).1 id =
      some (svh_to_fingerprint svh) ∧
    svh_to_fingerprint svh = Fingerprint.from_smaller_hash svh.as_u64 := by
  refine ⟨?_, fxGet_insert_self _ _ _, rfl⟩
  simp [MetadataHashLoader.metadata_hash, hk, metadata_hash_loop, hm, hc]

/-- Witness for C3: unit 2 has summary hash recorded, definition (2,4) is
unresolved. -/
theorem c3_fallback_correctness_witness :
    MetadataHashLoader.metadata_hash ⟨[], [(2, ⟨5⟩)]⟩ ⟨2, 4⟩ tcxTrivial =
      MetadataHashResult.ok (svh_to_fingerprint ⟨5⟩)
        ⟨[(⟨2, 4⟩, svh_to_fingerprint ⟨5⟩)], [(2, ⟨5⟩)]⟩ [] [] ∧
    fxGet ([(⟨2, 4⟩, svh_to_fingerprint ⟨5⟩)] : List (DefId × Fingerprint))
        ⟨2, 4⟩ =
      some (svh_to_fingerprint ⟨5⟩) ∧
    svh_to_fingerprint ⟨5⟩ = Fingerprint.from_smaller_hash (Svh.as_u64 ⟨5⟩) :=
  c3_fallback_correctness tcxTrivial ⟨[], [(2, ⟨5⟩)]⟩ ⟨2, 4⟩ ⟨5⟩ (by decide)
    rfl rfl

/-! ### Session-level lemmas -/

theorem metadata_hash_call_shape (tcx : TyCtxtEnv) (s : MetadataHashLoader)
    (id : DefId) :
    (∀ c : CrateNum, (fxGet s.crate_hashes c).isSome →
      (fxGet (s.metadata_hash id tcx).state.crate_hashes c).isSome) ∧
    ((s.metadata_hash id tcx).loads = [] ∨
      ((s.metadata_hash id tcx).loads = [id.krate] ∧
        fxGet s.crate_hashes id.krate = none ∧
        (fxGet (s.metadata_hash id tcx).state.crate_hashes
          id.krate).isSome)) := by
  by_cases hk : id.krate = LOCAL_CRATE
  · constructor
    · intro c hc
      simpa [MetadataHashLoader.metadata_hash, hk,
        MetadataHashResult.state] using hc
    · left
      simp [MetadataHashLoader.metadata_hash, hk, MetadataHashResult.loads]
  · constructor
    · intro c hc
      have h := metadata_hash_loop_crate_mono tcx id 2 s [] [] c hc
      simpa [MetadataHashLoader.metadata_hash, hk] using h
    · have h := metadata_hash_loop_loads_shape tcx id 2 s [] []
      simpa [MetadataHashLoader.metadata_hash, hk] using h

theorem session_step (s s' : MetadataHashLoader) (loads l : List CrateNum)
    (u : CrateNum)
    (hmono : ∀ c : CrateNum, (fxGet s.crate_hashes c).isSome →
      (fxGet s'.crate_hashes c).isSome)
    (hshape : l = [] ∨ (l = [u] ∧ fxGet s.crate_hashes u = none ∧
      (fxGet s'.crate_hashes u).isSome))
    (hinv : ∀ c ∈ loads, (fxGet s.crate_hashes c).isSome)
    (hnd : loads.Nodup) :
    (∀ c ∈ loads ++ l, (fxGet s'.crate_hashes c).isSome) ∧
    (loads ++ l).Nodup := by
  rcases hshape with rfl | ⟨rfl, hpre, hpost⟩
  · refine ⟨?_, by simpa using hnd⟩
    intro c hc
    rw [List.append_nil] at hc
    exact hmono c (hinv c hc)
  · have hnotmem : u ∉ loads := by
      intro hmem
      have h := hinv _ hmem
      rw [hpre] at h
      simp at h
    constructor
    · intro c hc
      rcases List.mem_append.mp hc with h | h
      · exact hmono c (hinv c h)
      · rw [List.mem_singleton.mp h]
        exact hpost
    · rw [List.nodup_append]
      refine ⟨hnd, List.nodup_singleton _, ?_⟩
      intro a ha hb
      rw [List.mem_singleton.mp hb] at ha
      exact hnotmem ha

theorem run_session_invariant (tcx : TyCtxtEnv) (ids : List DefId) :
    ∀ (s : MetadataHashLoader) (diags : List String)
      (loads : List CrateNum),
      (∀ c ∈ loads, (fxGet s.crate_hashes c).isSome) → loads.Nodup →
      ((run_session tcx ids s diags loads).loads.Nodup ∧
        ∀ c ∈ (run_session tcx ids s diags loads).loads,
          (fxGet
            (run_session tcx ids s diags loads).state.crate_hashes
            c).isSome) := by
  induction ids with
  | nil =>
    intro s diags loads hinv hnd
    constructor
    · simpa [run_session, SessionResult.loads] using hnd
    · simpa [run_session, SessionResult.loads, SessionResult.state] using hinv
  | cons id rest ih =>
    intro s diags loads hinv hnd
    obtain ⟨hmono, hshape⟩ := metadata_hash_call_shape tcx s id
    cases hr : s.metadata_hash id tcx with
    | ok fp s' d l =>
      rw [hr] at hmono hshape
      simp only [MetadataHashResult.state, MetadataHashResult.loads]
        at hmono hshape
      have hstep := session_step s s' loads l id.krate hmono hshape hinv hnd
      have hrun : run_session tcx (id :: rest) s diags loads =
          run_session tcx rest s' (diags ++ d) (loads ++ l) := by
        simp [run_session, hr]
      rw [hrun]
      exact ih s' (diags ++ d) (loads ++ l) hstep.1 hstep.2
    | fatal m s' d l =>
      rw [hr] at hmono hshape
      simp only [MetadataHashResult.state, MetadataHashResult.loads]
        at hmono hshape
      have hstep := session_step s s' loads l id.krate hmono hshape hinv hnd
      have hrun : run_session tcx (id :: rest) s diags loads =
          SessionResult.fatal m s' (diags ++ d) (loads ++ l) := by
        simp [run_session, hr]
      rw [hrun]
      exact ⟨hstep.2, by
        simpa [SessionResult.loads, SessionResult.state] using hstep.1⟩
    | outOfFuel s' d l =>
      rw [hr] at hmono hshape
      simp only [MetadataHashResult.state, MetadataHashResult.loads]
        at hmono hshape
      have hstep := session_step s s' loads l id.krate hmono hshape hinv hnd
      have hrun : run_session tcx (id :: rest) s diags loads =
          SessionResult.fatal "out of fuel" s' (diags ++ d) (loads ++ l) := by
        simp [run_session, hr]
      rw [hrun]
      exact ⟨hstep.2, by
        simpa [SessionResult.loads, SessionResult.state] using hstep.1⟩

/-! ### Claim C1 -/

/-- C1: across any sequence of `metadata_hash` calls in one session starting
from the empty maps, `load_data` executes at most once per unit — the list
of `load_data` invocations has no duplicate crate — and every unit it was
invoked for has its summary hash present in the per-unit map afterwards
(each invocation happens only when the unit is absent, and on return the
unit is present, so a second invocation never occurs). -/
theorem c1_at_most_once_load (tcx : TyCtxtEnv) (ids : List DefId) :
    (run_session tcx ids MetadataHashLoader.initialState [] []).loads.Nodup ∧
    ∀ c ∈ (run_session tcx ids MetadataHashLoader.initialState [] []).loads,
      (fxGet
        (run_session tcx ids
          MetadataHashLoader.initialState [] []).state.crate_hashes
        c).isSome :=
  run_session_invariant tcx ids MetadataHashLoader.initialState [] []
    (fun c hc => absurd hc (List.not_mem_nil c)) List.nodup_nil
